import Mathlib

/-!
# StockSense AI — verification of the indicator and portfolio core

Shallow embedding of the core of `src/app.py` (the `Portfolio` class, the
`simple_sentiment` keyword classifier, the `add_technical_indicators`
pipeline and the `run_cli` control flow), together with theorems settling
the specification's claims about them.

Modelling conventions:
* Python floats are modelled as exact rationals (`ℚ`); the IEEE special
  values `nan`/`±inf` that arise in the RSI division are modelled
  explicitly by the `EF` type below.
* A Python `dict` with string keys is an insertion-ordered association
  list `List (String × ℤ)` with first-occurrence lookup; real dicts never
  hold duplicate keys, so theorems that need it take a `Nodup` hypothesis
  on the key list.
* External gateways (`yfinance`, the network) are parameters: an
  `Option`/`Except` value stands for "the call returned this" or
  "the call raised".
-/

set_option autoImplicit false

namespace StockSense

/-! ## Python dict primitives (insertion-ordered association list) -/

/-- Python `str.upper()` on the character list of the string (the source
only ever upper-cases ASCII ticker symbols, where `Char.toUpper` agrees
with Python). -/
def pyUpper (s : String) : String :=
  ⟨s.data.map Char.toUpper⟩

/-- Python `str.lower()`, as for `pyUpper`. -/
def pyLower (s : String) : String :=
  ⟨s.data.map Char.toLower⟩

/-- A `Portfolio` is the `self.stocks` dict: symbol ↦ share count. -/
abbrev Portfolio := List (String × ℤ)

/-- Python `d.get(s)` / `d[s]`: value at the first occurrence of key `s`. -/
def dictGet (p : Portfolio) (s : String) : Option ℤ :=
  match p with
  | [] => none
  | (k, v) :: rest => if k = s then some v else dictGet rest s

/-- Python `d[s] = v`: update the first occurrence of `s` in place, else append. -/
def dictSet (p : Portfolio) (s : String) (v : ℤ) : Portfolio :=
  match p with
  | [] => [(s, v)]
  | (k, w) :: rest => if k = s then (k, v) :: rest else (k, w) :: dictSet rest s v

/-- Python `del d[s]`: drop the first occurrence of key `s`. -/
def dictDel (p : Portfolio) (s : String) : Portfolio :=
  match p with
  | [] => []
  | (k, w) :: rest => if k = s then rest else (k, w) :: dictDel rest s

/-! ## Portfolio class (`src/app.py`, lines 29–55) -/

/-- Method `Portfolio.add_stock`: upper-case the symbol, then
`self.stocks[symbol] = self.stocks.get(symbol, 0) + shares`.
The source performs no validation of `shares`. -/
def add_stock (p : Portfolio) (symbol : String) (shares : ℤ) : Portfolio :=
  let s := pyUpper symbol
  dictSet p s ((dictGet p s).getD 0 + shares)

/-- Method `Portfolio.remove_stock`: upper-case the symbol; if present, clamp the
new count at 0 (`max(0, …)`) and delete the entry when it reaches 0. -/
def remove_stock (p : Portfolio) (symbol : String) (shares : ℤ) : Portfolio :=
  let s := pyUpper symbol
  if (dictGet p s).isSome then
    let p1 := dictSet p s (max 0 ((dictGet p s).getD 0 - shares))
    if dictGet p1 s = some 0 then dictDel p1 s else p1
  else p

/-- Method `Portfolio.get_holdings`: `self.stocks.copy()` — a snapshot; in the
value-semantics embedding the copy is the dict itself. -/
def get_holdings (p : Portfolio) : Portfolio := p

/-- Method `Portfolio.get_value`: iterate over the holdings; for each, fetch
`yf.Ticker(symbol).info.get('currentPrice', 0)` inside `try`, adding
`price * shares` to the total; `except: continue` skips a holding whose
fetch raised. The gateway expression is the parameter `gw`; `none` models
the raised exception, `some price` a successful fetch (`info.get`'s
default 0 for a missing key is part of the gateway expression, so a
missing price arrives as `some 0`). -/
def get_value (p : Portfolio) (gw : String → Option ℚ) : ℚ :=
  p.foldl (fun total e =>
    match gw e.1 with
    | some price => total + price * (e.2 : ℚ)
    | none => total) 0

/-! ## Sentiment (`src/app.py`, lines 71–78) -/

/-- Python's `needle in haystack` substring test. -/
def pyIn (needle hay : String) : Bool :=
  hay.data.tails.any (fun t => needle.data.isPrefixOf t)

/-- Function `simple_sentiment`: lower-case the text; "Positive" if it contains
"up" or "gain", else "Negative" if it contains "down" or "loss",
else "Neutral". -/
def simple_sentiment (text : String) : String :=
  let t := pyLower text
  if pyIn "up" t || pyIn "gain" t then "Positive"
  else if pyIn "down" t || pyIn "loss" t then "Negative"
  else "Neutral"

/-! ## Float model for the RSI division

The RSI pipeline divides a mean gain by a mean loss, so `inf` and `nan`
appear.  `EF` is an exact-value model of IEEE double arithmetic on the
values the pipeline produces: a rational, `+inf`, `-inf`, or `nan`.
Signed zeros are collapsed to `0`; in the source the all-zero mean loss
is in fact `-0.0` (it is a mean of negated `0.0`s), for which IEEE gives
`rs = g / -0.0 = -inf`, `1 + rs = -inf`, `100 / -inf = -0.0` and
`100 - -0.0 = 100.0` — the same RSI value the `+0` model yields, so the
collapse does not affect any RSI output. -/

inductive EF where
  | nan : EF
  | pinf : EF
  | ninf : EF
  | val : ℚ → EF
deriving DecidableEq

namespace EF

def add : EF → EF → EF
  | nan, _ => nan
  | _, nan => nan
  | pinf, ninf => nan
  | ninf, pinf => nan
  | pinf, _ => pinf
  | _, pinf => pinf
  | ninf, _ => ninf
  | _, ninf => ninf
  | val a, val b => val (a + b)

def sub : EF → EF → EF
  | nan, _ => nan
  | _, nan => nan
  | pinf, pinf => nan
  | ninf, ninf => nan
  | pinf, _ => pinf
  | _, pinf => ninf
  | ninf, _ => ninf
  | _, ninf => pinf
  | val a, val b => val (a - b)

def div : EF → EF → EF
  | nan, _ => nan
  | _, nan => nan
  | pinf, pinf => nan
  | pinf, ninf => nan
  | ninf, pinf => nan
  | ninf, ninf => nan
  | pinf, val b => if b < 0 then ninf else pinf
  | ninf, val b => if b < 0 then pinf else ninf
  | val _, pinf => val 0
  | val _, ninf => val 0
  | val a, val b =>
    if b = 0 then (if a = 0 then nan else if 0 < a then pinf else ninf)
    else val (a / b)

/-- A series cell holding a plain number (`some q` in the `Option ℚ`
series world) or `NaN` (`none`). -/
def ofOpt : Option ℚ → EF
  | none => nan
  | some q => val q

end EF

/-! ## Indicator engine (`src/app.py`, lines 102–110) -/

/-- Pandas `Series.rolling(window=w).mean()` on a series of plain numbers
(pandas defaults `min_periods` to the window): position `i` carries the
mean of the `w` entries ending at `i`, and `NaN` (`none`) while fewer
than `w` entries exist. -/
def rollingMean (w : ℕ) (xs : List ℚ) : List (Option ℚ) :=
  (List.range xs.length).map (fun i =>
    if w ≤ i + 1 then some (((xs.take (i + 1)).drop (i + 1 - w)).sum / (w : ℚ)) else none)

/-- Pandas `Series.diff()`: `none` (NaN) at position 0, then successive
differences `close[i] - close[i-1]`. -/
def diff (xs : List ℚ) : List (Option ℚ) :=
  match xs with
  | [] => []
  | _ :: rest => none :: List.zipWith (fun b a => some (b - a)) rest xs

/-- Pandas `delta.where(delta > 0, 0)`: keep a positive delta, otherwise 0.
A `NaN` delta (position 0) fails the comparison and becomes 0. -/
def gains (closes : List ℚ) : List ℚ :=
  (diff closes).map (fun d =>
    match d with
    | some v => if 0 < v then v else 0
    | none => 0)

/-- Pandas `-delta.where(delta < 0, 0)`: the negated negative delta, otherwise 0
(IEEE `-0.0` collapsed to 0).  A `NaN` delta becomes 0. -/
def losses (closes : List ℚ) : List ℚ :=
  (diff closes).map (fun d =>
    match d with
    | some v => if v < 0 then -v else 0
    | none => 0)

/-- Column `gain = (delta.where(delta > 0, 0)).rolling(window=w).mean()`. -/
def avgGain (w : ℕ) (closes : List ℚ) : List (Option ℚ) :=
  rollingMean w (gains closes)

/-- Column `loss = (-delta.where(delta < 0, 0)).rolling(window=w).mean()`. -/
def avgLoss (w : ℕ) (closes : List ℚ) : List (Option ℚ) :=
  rollingMean w (losses closes)

/-- One cell of `100 - (100 / (1 + gain/loss))` in IEEE arithmetic. -/
def rsiCell (g l : Option ℚ) : EF :=
  let rs := EF.div (EF.ofOpt g) (EF.ofOpt l)
  EF.sub (EF.val 100) (EF.div (EF.val 100) (EF.add (EF.val 1) rs))

/-- The `df['RSI']` column: `rs = gain / loss; RSI = 100 - (100/(1+rs))`,
elementwise over the rolling means. -/
def rsiSeries (w : ℕ) (closes : List ℚ) : List EF :=
  List.zipWith rsiCell (avgGain w closes) (avgLoss w closes)

/-- The three derived columns of `add_technical_indicators`, aligned 1:1
with the input closes. -/
structure IndicatorSeries where
  ma_short : List (Option ℚ)
  ma_long : List (Option ℚ)
  rsi : List EF
deriving DecidableEq

/-- Function `add_technical_indicators`: MA20 and MA50 are rolling means of the
closes, RSI uses a 14-period window. -/
def add_technical_indicators (closes : List ℚ) : IndicatorSeries :=
  { ma_short := rollingMean 20 closes
    ma_long := rollingMean 50 closes
    rsi := rsiSeries 14 closes }

/-! ## Lemmas about the dict primitives -/

theorem dictGet_dictSet_self (p : Portfolio) (s : String) (v : ℤ) :
    dictGet (dictSet p s v) s = some v := by
  induction p with
  | nil => simp [dictGet, dictSet]
  | cons e rest ih =>
    obtain ⟨k, w⟩ := e
    by_cases h : k = s <;> simp [dictGet, dictSet, h, ih]

theorem dictGet_dictSet_ne (p : Portfolio) (s s' : String) (v : ℤ) (h : s' ≠ s) :
    dictGet (dictSet p s v) s' = dictGet p s' := by
  induction p with
  | nil => simp [dictGet, dictSet, Ne.symm h]
  | cons e rest ih =>
    obtain ⟨k, w⟩ := e
    by_cases hk : k = s
    · subst hk
      simp [dictGet, dictSet, Ne.symm h]
    · simp [dictGet, dictSet, hk, ih]

theorem dictGet_eq_none_iff (p : Portfolio) (s : String) :
    dictGet p s = none ↔ s ∉ p.map Prod.fst := by
  induction p with
  | nil => simp [dictGet]
  | cons e rest ih =>
    obtain ⟨k, w⟩ := e
    by_cases h : k = s <;> simp [dictGet, h, ih, Ne.symm, eq_comm]

theorem dictDel_eq_of_none (p : Portfolio) (s : String) (h : dictGet p s = none) :
    dictDel p s = p := by
  induction p with
  | nil => simp [dictDel]
  | cons e rest ih =>
    obtain ⟨k, w⟩ := e
    by_cases hk : k = s
    · simp [dictGet, hk] at h
    · simp [dictGet, hk] at h
      simp [dictDel, hk, ih h]

theorem dictSet_eq_append_of_none (p : Portfolio) (s : String) (v : ℤ)
    (h : dictGet p s = none) : dictSet p s v = p ++ [(s, v)] := by
  induction p with
  | nil => simp [dictSet]
  | cons e rest ih =>
    obtain ⟨k, w⟩ := e
    by_cases hk : k = s
    · simp [dictGet, hk] at h
    · simp [dictGet, hk] at h
      simp [dictSet, hk, ih h]

theorem dictGet_append_of_none (p q : Portfolio) (s : String)
    (h : dictGet p s = none) : dictGet (p ++ q) s = dictGet q s := by
  induction p with
  | nil => simp
  | cons e rest ih =>
    obtain ⟨k, w⟩ := e
    by_cases hk : k = s
    · simp [dictGet, hk] at h
    · simp [dictGet, hk] at h
      simpa [dictGet, hk] using ih h

theorem dictSet_append_of_none (p q : Portfolio) (s : String) (v : ℤ)
    (h : dictGet p s = none) : dictSet (p ++ q) s v = p ++ dictSet q s v := by
  induction p with
  | nil => simp
  | cons e rest ih =>
    obtain ⟨k, w⟩ := e
    by_cases hk : k = s
    · simp [dictGet, hk] at h
    · simp [dictGet, hk] at h
      simp [dictSet, hk, ih h]

theorem dictDel_append_of_none (p q : Portfolio) (s : String)
    (h : dictGet p s = none) : dictDel (p ++ q) s = p ++ dictDel q s := by
  induction p with
  | nil => simp
  | cons e rest ih =>
    obtain ⟨k, w⟩ := e
    by_cases hk : k = s
    · simp [dictGet, hk] at h
    · simp [dictGet, hk] at h
      simp [dictDel, hk, ih h]

theorem keys_dictSet_of_isSome (p : Portfolio) (s : String) (v : ℤ)
    (h : (dictGet p s).isSome) :
    (dictSet p s v).map Prod.fst = p.map Prod.fst := by
  induction p with
  | nil => simp [dictGet] at h
  | cons e rest ih =>
    obtain ⟨k, w⟩ := e
    by_cases hk : k = s
    · simp [dictSet, hk]
    · simp [dictGet, hk] at h
      simp [dictSet, hk, ih h]

theorem dictGet_dictDel_self (p : Portfolio) (s : String)
    (hnd : (p.map Prod.fst).Nodup) : dictGet (dictDel p s) s = none := by
  induction p with
  | nil => simp [dictGet, dictDel]
  | cons e rest ih =>
    obtain ⟨k, w⟩ := e
    simp only [List.map_cons, List.nodup_cons] at hnd
    by_cases hk : k = s
    · subst hk
      simp only [dictDel, if_pos rfl]
      exact (dictGet_eq_none_iff rest k).2 hnd.1
    · simp [dictDel, dictGet, hk, ih hnd.2]

/-- Sum form of the valuation loop: folding over the holdings equals the
sum of each holding's contribution (0 where the price fetch raised). -/
theorem get_value_eq_sum (p : Portfolio) (gw : String → Option ℚ) :
    get_value p gw = (p.map (fun e => match gw e.1 with
      | some price => price * (e.2 : ℚ)
      | none => 0)).sum := by
  have h : ∀ (q : Portfolio) (init : ℚ),
      q.foldl (fun total e => match gw e.1 with
        | some price => total + price * (e.2 : ℚ)
        | none => total) init
      = init + (q.map (fun e => match gw e.1 with
        | some price => price * (e.2 : ℚ)
        | none => 0)).sum := by
    intro q
    induction q with
    | nil => intro init; simp
    | cons e rest ih =>
      intro init
      cases hg : gw e.1 with
      | none => simp [List.foldl, hg, ih]
      | some pr => simp [List.foldl, hg, ih, add_assoc]
  simpa [get_value] using h p 0

/-- C9: for every symbol and `shares > 0`, `add_stock` normalizes the
symbol to upper case and increments the existing holding under that key
(or creates one), leaving all other keys unchanged; in particular
`add("aapl", 5)` on the empty portfolio yields exactly `{"AAPL": 5}`. -/
theorem add_stock_normalizes_and_increments (p : Portfolio) (s : String) (k : ℤ)
    (hk : 0 < k) :
    dictGet (add_stock p s k) (pyUpper s) = some ((dictGet p (pyUpper s)).getD 0 + k) ∧
    (∀ s', s' ≠ pyUpper s → dictGet (add_stock p s k) s' = dictGet p s') ∧
    add_stock [] "aapl" 5 = [("AAPL", 5)] := by
  refine ⟨?_, ?_, by decide⟩
  · simp [add_stock, dictGet_dictSet_self]
  · intro s' h
    simp [add_stock, dictGet_dictSet_ne _ _ _ _ h]

/-- C9 witness: the theorem at the concrete input of its example —
adding 5 shares of "aapl" to the empty portfolio gives `{"AAPL": 5}`. -/
theorem add_stock_normalizes_and_increments_witness :
    add_stock [] "aapl" 5 = [("AAPL", 5)] :=
  (add_stock_normalizes_and_increments [] "aapl" 5 (by decide)).2.2

/-- C5 counterexample: `add_stock` does not reject a non-positive share
count — on the empty portfolio, `add("aapl", -5)` succeeds and changes
the state to a negative holding, where the claim demands an
`InvalidArgument` failure with the state unchanged. -/
theorem add_stock_no_validation_cex :
    add_stock [] "aapl" (-5) = [("AAPL", -5)] ∧
    add_stock [] "aapl" (-5) ≠ ([] : Portfolio) := by
  exact ⟨by decide, by decide⟩

/-- C5 amended: `add_stock` performs no validation of the share count:
for every `shares ≤ 0` the call still succeeds and adds `shares` to the
(possibly fresh) entry for the upper-cased symbol, so the state changes
rather than being rejected. -/
theorem add_stock_accepts_nonpositive (p : Portfolio) (s : String) (k : ℤ)
    (hk : k ≤ 0) :
    dictGet (add_stock p s k) (pyUpper s) = some ((dictGet p (pyUpper s)).getD 0 + k) := by
  simp [add_stock, dictGet_dictSet_self]

/-- C5 amended witness: adding -5 shares of "aapl" to the empty
portfolio produces the entry `("AAPL", -5)`. -/
theorem add_stock_accepts_nonpositive_witness :
    dictGet (add_stock [] "aapl" (-5)) (pyUpper "aapl") =
      some ((dictGet [] (pyUpper "aapl")).getD 0 + (-5)) :=
  add_stock_accepts_nonpositive [] "aapl" (-5) (by decide)

/-- C3: `remove_stock` (a total function — it never fails) clamps the
resulting count at a minimum of 0 and deletes a holding that reaches 0,
so any entry surviving for the normalized symbol is strictly positive;
it is a no-op when the normalized symbol has no holding. -/
theorem remove_stock_clamps_and_deletes (p : Portfolio) (s : String) (k : ℤ)
    (hnd : (p.map Prod.fst).Nodup) :
    (∀ c, dictGet (remove_stock p s k) (pyUpper s) = some c → 0 < c) ∧
    (dictGet p (pyUpper s) = none → remove_stock p s k = p) ∧
    (∀ c, dictGet p (pyUpper s) = some c →
      dictGet (remove_stock p s k) (pyUpper s) =
        if max 0 (c - k) = 0 then none else some (max 0 (c - k))) := by
  cases h : dictGet p (pyUpper s) with
  | none =>
    have hrem : remove_stock p s k = p := by
      simp [remove_stock, h]
    refine ⟨?_, fun _ => hrem, ?_⟩
    · intro c hc
      rw [hrem, h] at hc
      exact Option.noConfusion hc
    · intro c hc
      exact Option.noConfusion hc
  | some cur =>
    have hget1 : dictGet (dictSet p (pyUpper s) (max 0 (cur - k))) (pyUpper s)
        = some (max 0 (cur - k)) := dictGet_dictSet_self p (pyUpper s) _
    have hnd1 : ((dictSet p (pyUpper s) (max 0 (cur - k))).map Prod.fst).Nodup := by
      rw [keys_dictSet_of_isSome p (pyUpper s) _ (by simp [h])]
      exact hnd
    by_cases hz : max 0 (cur - k) = 0
    · have hrem : remove_stock p s k
          = dictDel (dictSet p (pyUpper s) (max 0 (cur - k))) (pyUpper s) := by
        simp only [remove_stock, h, Option.isSome_some, if_true, Option.getD_some]
        rw [if_pos (by rw [hget1, hz])]
      have hdel : dictGet (remove_stock p s k) (pyUpper s) = none := by
        rw [hrem]
        exact dictGet_dictDel_self _ _ hnd1
      refine ⟨?_, ?_, ?_⟩
      · intro c hc
        rw [hdel] at hc
        exact Option.noConfusion hc
      · intro hcon
        exact Option.noConfusion hcon
      · intro c hc
        injection hc with hc
        subst hc
        rw [hdel, if_pos hz]
    · have hcond : ¬ dictGet (dictSet p (pyUpper s) (max 0 (cur - k))) (pyUpper s)
          = some 0 := by
        rw [hget1]
        intro hcon
        injection hcon with hcon
        exact hz hcon
      have hrem : remove_stock p s k = dictSet p (pyUpper s) (max 0 (cur - k)) := by
        simp only [remove_stock, h, Option.isSome_some, if_true, Option.getD_some]
        rw [if_neg hcond]
      have hpos : 0 < max 0 (cur - k) :=
        lt_of_le_of_ne (le_max_left 0 (cur - k)) (Ne.symm hz)
      refine ⟨?_, ?_, ?_⟩
      · intro c hc
        rw [hrem, hget1] at hc
        injection hc with hc
        exact hc ▸ hpos
      · intro hcon
        exact Option.noConfusion hcon
      · intro c hc
        injection hc with hc
        subst hc
        rw [hrem, hget1, if_neg hz]

/-- C3 witness: the theorem at a concrete input — removing 5 shares of
"aapl" from a portfolio holding 3 deletes the entry (count clamped to 0,
no zero-share entry persists). -/
theorem remove_stock_clamps_and_deletes_witness :
    dictGet (remove_stock [("AAPL", 3)] "aapl" 5) (pyUpper "aapl") = none := by
  have h := (remove_stock_clamps_and_deletes [("AAPL", 3)] "aapl" 5 (by decide)).2.2
    3 (by decide)
  rw [h]
  norm_num

/-- C6: on a portfolio with no holding for the normalized symbol,
`add(sym, k)` followed by `remove(sym, k)` with `k > 0` restores the
holdings to exactly the pre-add state. -/
theorem add_then_remove_roundtrip (p : Portfolio) (s : String) (k : ℤ)
    (hk : 0 < k) (habs : dictGet p (pyUpper s) = none) :
    remove_stock (add_stock p s k) s k = p := by
  have hadd : add_stock p s k = p ++ [(pyUpper s, k)] := by
    simp [add_stock, habs, dictSet_eq_append_of_none p (pyUpper s) k habs]
  have hget : dictGet (p ++ [(pyUpper s, k)]) (pyUpper s) = some k := by
    rw [dictGet_append_of_none p _ _ habs]
    simp [dictGet]
  have hset : dictSet (p ++ [(pyUpper s, k)]) (pyUpper s) (max 0 (k - k))
      = p ++ [(pyUpper s, 0)] := by
    rw [dictSet_append_of_none p _ _ _ habs]
    simp [dictSet]
  have hget0 : dictGet (p ++ [(pyUpper s, 0)]) (pyUpper s) = some 0 := by
    rw [dictGet_append_of_none p _ _ habs]
    simp [dictGet]
  have hdel : dictDel (p ++ [(pyUpper s, 0)]) (pyUpper s) = p := by
    rw [dictDel_append_of_none p _ _ habs]
    simp [dictDel]
  rw [hadd]
  simp only [remove_stock, hget, Option.isSome_some, if_true, Option.getD_some, hset, hget0,
    if_pos rfl, hdel]

/-- C6 witness: the round trip at a concrete input — add then remove 5
shares of "aapl" on a portfolio that holds only MSFT. -/
theorem add_then_remove_roundtrip_witness :
    remove_stock (add_stock [("MSFT", 2)] "aapl" 5) "aapl" 5 = [("MSFT", 2)] :=
  add_then_remove_roundtrip [("MSFT", 2)] "aapl" 5 (by decide) (by decide)

/-- C4: `get_value` equals the sum over all holdings of price × shares,
a holding whose price fetch raised contributing exactly 0; with two
holdings and a lookup failing for one, the result is exactly the other
holding's contribution. -/
theorem get_value_partial_failure_isolation (p : Portfolio) (gw : String → Option ℚ) :
    get_value p gw = (p.map (fun e => match gw e.1 with
      | some price => price * (e.2 : ℚ)
      | none => 0)).sum ∧
    get_value [("AAPL", 5), ("TSLA", 3)]
      (fun s' => if s' = "AAPL" then some 190 else none) = 190 * 5 := by
  refine ⟨get_value_eq_sum p gw, ?_⟩
  simp only [get_value, List.foldl, String.reduceEq, reduceIte]
  norm_num

/-! ## Lemmas about the indicator pipeline -/

theorem length_rollingMean (w : ℕ) (xs : List ℚ) :
    (rollingMean w xs).length = xs.length := by
  simp [rollingMean]

theorem rollingMean_getElem? (w : ℕ) (xs : List ℚ) (i : ℕ) (hi : i < xs.length) :
    (rollingMean w xs)[i]? =
      some (if w ≤ i + 1 then some (((xs.take (i + 1)).drop (i + 1 - w)).sum / (w : ℚ))
        else none) := by
  unfold rollingMean
  rw [List.getElem?_map, List.getElem?_range hi]
  rfl

theorem rollingMean_nonneg (w : ℕ) (xs : List ℚ) (i : ℕ) (q : ℚ)
    (hxs : ∀ x ∈ xs, 0 ≤ x) (h : (rollingMean w xs)[i]? = some (some q)) : 0 ≤ q := by
  have hi : i < xs.length := by
    by_contra hlt
    have hnone : (rollingMean w xs)[i]? = none := by
      rw [List.getElem?_eq_none]
      rw [length_rollingMean]
      omega
    rw [hnone] at h
    exact Option.noConfusion h
  rw [rollingMean_getElem? w xs i hi] at h
  by_cases hw : w ≤ i + 1
  · rw [if_pos hw] at h
    injection h with h
    injection h with h
    subst h
    apply div_nonneg
    · apply List.sum_nonneg
      intro x hx
      exact hxs x (List.mem_of_mem_take (List.mem_of_mem_drop hx))
    · exact Nat.cast_nonneg w
  · rw [if_neg hw] at h
    injection h with h
    exact Option.noConfusion h

theorem gains_nonneg (closes : List ℚ) : ∀ x ∈ gains closes, 0 ≤ x := by
  intro x hx
  simp only [gains, List.mem_map] at hx
  obtain ⟨d, _, rfl⟩ := hx
  cases d with
  | none => exact le_refl 0
  | some v =>
    by_cases hv : 0 < v
    · simp [hv]
      exact le_of_lt hv
    · simp [hv]

theorem losses_nonneg (closes : List ℚ) : ∀ x ∈ losses closes, 0 ≤ x := by
  intro x hx
  simp only [losses, List.mem_map] at hx
  obtain ⟨d, _, rfl⟩ := hx
  cases d with
  | none => exact le_refl 0
  | some v =>
    by_cases hv : v < 0
    · simp [hv]
      linarith
    · simp [hv]

theorem length_diff (xs : List ℚ) : (diff xs).length = xs.length := by
  cases xs with
  | nil => rfl
  | cons x rest => simp [diff, List.length_zipWith]

theorem length_gains (closes : List ℚ) : (gains closes).length = closes.length := by
  simp [gains, length_diff]

theorem length_losses (closes : List ℚ) : (losses closes).length = closes.length := by
  simp [losses, length_diff]

theorem length_rsiSeries (w : ℕ) (closes : List ℚ) :
    (rsiSeries w closes).length = closes.length := by
  simp [rsiSeries, List.length_zipWith, avgGain, avgLoss, length_rollingMean,
    length_gains, length_losses]

theorem rsiSeries_getElem? (w : ℕ) (closes : List ℚ) (i : ℕ) :
    (rsiSeries w closes)[i]? =
      ((avgGain w closes)[i]?.map rsiCell).bind fun g => (avgLoss w closes)[i]?.map g :=
  List.getElem?_zipWith'

theorem rsiCell_nan_left (l : Option ℚ) : rsiCell none l = EF.nan := by
  cases l <;> rfl

theorem rsiCell_nan_right (g : Option ℚ) : rsiCell g none = EF.nan := by
  cases g <;> rfl

theorem rsiCell_nan_00 : rsiCell (some 0) (some 0) = EF.nan := by
  simp [rsiCell, EF.ofOpt, EF.div, EF.add, EF.sub]

theorem rsiCell_100 (gv : ℚ) (hg : 0 < gv) : rsiCell (some gv) (some 0) = EF.val 100 := by
  have h1 : EF.div (EF.ofOpt (some gv)) (EF.ofOpt (some 0)) = EF.pinf := by
    simp [EF.ofOpt, EF.div, hg, ne_of_gt hg]
  simp only [rsiCell, h1]
  show EF.sub (EF.val 100) (EF.div (EF.val 100) (EF.add (EF.val 1) EF.pinf)) = EF.val 100
  show EF.val (100 - 0) = EF.val 100
  norm_num

theorem rsiCell_val_bounds (gv lv : ℚ) (hg : 0 ≤ gv) (hl : 0 ≤ lv) :
    rsiCell (some gv) (some lv) = EF.nan ∨
      ∃ q, rsiCell (some gv) (some lv) = EF.val q ∧ 0 ≤ q ∧ q ≤ 100 := by
  by_cases hlz : lv = 0
  · subst hlz
    by_cases hgz : gv = 0
    · subst hgz
      exact Or.inl rsiCell_nan_00
    · exact Or.inr ⟨100, rsiCell_100 gv (lt_of_le_of_ne hg (Ne.symm hgz)), by norm_num,
        by norm_num⟩
  · right
    have hr : 0 ≤ gv / lv := div_nonneg hg hl
    have h1 : (0 : ℚ) < 1 + gv / lv := by linarith
    refine ⟨100 - 100 / (1 + gv / lv), ?_, ?_, ?_⟩
    · simp [rsiCell, EF.ofOpt, EF.div, EF.add, EF.sub, hlz, ne_of_gt h1]
    · have hle : 100 / (1 + gv / lv) ≤ 100 := by
        rw [div_le_iff₀ h1]
        nlinarith
      linarith
    · have hpos : 0 < 100 / (1 + gv / lv) := by positivity
      linarith

/-- C1: for every window `w > 0` and every position `i` of the series,
the rolling mean is defined iff `i ≥ w - 1`, and where defined it equals
the arithmetic mean of the closes at positions `i-w+1 … i`; in particular
`[10,12,11,13,15]` with window 3 gives
`[undef, undef, 11.0, 12.0, 13.0]`. -/
theorem ma_defined_iff_and_is_mean (w : ℕ) (xs : List ℚ) (i : ℕ)
    (hw : 0 < w) (hi : i < xs.length) :
    ((∃ v, (rollingMean w xs)[i]? = some (some v)) ↔ w - 1 ≤ i) ∧
    (w - 1 ≤ i → (rollingMean w xs)[i]? =
      some (some (((xs.drop (i + 1 - w)).take w).sum /
        (((xs.drop (i + 1 - w)).take w).length : ℚ)))) ∧
    rollingMean 3 [10, 12, 11, 13, 15] = [none, none, some 11, some 12, some 13] := by
  have hle : w - 1 ≤ i ↔ w ≤ i + 1 := by omega
  refine ⟨?_, ?_, ?_⟩
  · rw [rollingMean_getElem? w xs i hi, hle]
    by_cases hw1 : w ≤ i + 1
    · simp [hw1]
    · simp [hw1]
  · intro h
    have hw1 : w ≤ i + 1 := hle.1 h
    have hslice : (xs.take (i + 1)).drop (i + 1 - w) = (xs.drop (i + 1 - w)).take w := by
      rw [List.drop_take]
      congr 1
      omega
    have hlen : ((xs.drop (i + 1 - w)).take w).length = w := by
      rw [List.length_take, List.length_drop]
      omega
    rw [rollingMean_getElem? w xs i hi, if_pos hw1, hslice, hlen]
  · norm_num [rollingMean, List.range_succ]

/-- C1 witness: the theorem at window 3, series `[10,12,11,13,15]`,
position 2, yielding the example column. -/
theorem ma_defined_iff_and_is_mean_witness :
    rollingMean 3 [10, 12, 11, 13, 15] = [none, none, some 11, some 12, some 13] :=
  (ma_defined_iff_and_is_mean 3 [10, 12, 11, 13, 15] 2 (by decide) (by decide)).2.2

/-- C2: wherever the RSI column of `add_technical_indicators` carries a
number it lies in [0,100]; when the trailing average loss is 0 and the
average gain is positive, RSI is exactly 100; when both averages are 0
(every delta in the window is 0), RSI is undefined (NaN). -/
theorem rsi_bounds_and_edge_policy (closes : List ℚ) (i : ℕ) :
    (∀ q, (add_technical_indicators closes).rsi[i]? = some (EF.val q) → 0 ≤ q ∧ q ≤ 100) ∧
    (∀ g, (avgLoss 14 closes)[i]? = some (some 0) →
      (avgGain 14 closes)[i]? = some (some g) → 0 < g →
      (add_technical_indicators closes).rsi[i]? = some (EF.val 100)) ∧
    ((avgGain 14 closes)[i]? = some (some 0) → (avgLoss 14 closes)[i]? = some (some 0) →
      (add_technical_indicators closes).rsi[i]? = some EF.nan) := by
  have hrsi : (add_technical_indicators closes).rsi = rsiSeries 14 closes := rfl
  refine ⟨?_, ?_, ?_⟩
  · intro q h
    rw [hrsi, rsiSeries_getElem? 14 closes i] at h
    cases hag : (avgGain 14 closes)[i]? with
    | none =>
      rw [hag] at h
      exact Option.noConfusion h
    | some g =>
      cases hal : (avgLoss 14 closes)[i]? with
      | none =>
        rw [hag, hal] at h
        exact Option.noConfusion h
      | some l =>
        rw [hag, hal] at h
        have h2 : some (rsiCell g l) = some (EF.val q) := h
        injection h2 with h
        cases g with
        | none =>
          rw [rsiCell_nan_left] at h
          exact EF.noConfusion h
        | some gv =>
          cases l with
          | none =>
            rw [rsiCell_nan_right] at h
            exact EF.noConfusion h
          | some lv =>
            have hgv : 0 ≤ gv := rollingMean_nonneg 14 (gains closes) i gv
              (gains_nonneg closes) hag
            have hlv : 0 ≤ lv := rollingMean_nonneg 14 (losses closes) i lv
              (losses_nonneg closes) hal
            rcases rsiCell_val_bounds gv lv hgv hlv with hnan | ⟨q', hq', hq0, hq100⟩
            · rw [hnan] at h
              exact EF.noConfusion h
            · rw [hq'] at h
              injection h with h
              subst h
              exact ⟨hq0, hq100⟩
  · intro g hl hg hgpos
    rw [hrsi, rsiSeries_getElem? 14 closes i, hg, hl]
    exact congrArg some (rsiCell_100 g hgpos)
  · intro hg hl
    rw [hrsi, rsiSeries_getElem? 14 closes i, hg, hl]
    exact congrArg some rsiCell_nan_00

/-- C2 witness: the theorem's edge clauses at concrete inputs — for 14
strictly rising closes the trailing average loss is 0, the average gain
is 13/14 > 0 and RSI at position 13 is exactly 100. -/
theorem rsi_bounds_and_edge_policy_witness :
    (add_technical_indicators [0, 1, 2, 3, 4, 5, 6, 7, 8, 9, 10, 11, 12, 13]).rsi[13]? =
      some (EF.val 100) := by
  have h := (rsi_bounds_and_edge_policy [0, 1, 2, 3, 4, 5, 6, 7, 8, 9, 10, 11, 12, 13] 13).2.1
    (13 / 14) ?_ ?_ (by norm_num)
  · exact h
  · norm_num [avgLoss, losses, diff, rollingMean, List.range_succ]
  · norm_num [avgGain, gains, diff, rollingMean, List.range_succ]

/-- C10: `simple_sentiment` is total and returns exactly one of
"Positive", "Negative", "Neutral"; the positive keywords take priority
(text whose lower-casing contains "up" or "gain" is "Positive" even if
it also contains "down" or "loss"); "Negative" holds exactly when "down"
or "loss" occurs with neither positive keyword; otherwise "Neutral". -/
theorem simple_sentiment_total_and_priority (text : String) :
    (simple_sentiment text = "Positive" ∨ simple_sentiment text = "Negative" ∨
      simple_sentiment text = "Neutral") ∧
    ((pyIn "up" (pyLower text) || pyIn "gain" (pyLower text)) = true →
      simple_sentiment text = "Positive") ∧
    (simple_sentiment text = "Negative" ↔
      ((pyIn "down" (pyLower text) || pyIn "loss" (pyLower text)) = true ∧
        (pyIn "up" (pyLower text) || pyIn "gain" (pyLower text)) = false)) ∧
    ((pyIn "up" (pyLower text) || pyIn "gain" (pyLower text)) = false →
      (pyIn "down" (pyLower text) || pyIn "loss" (pyLower text)) = false →
      simple_sentiment text = "Neutral") := by
  cases hpos : (pyIn "up" (pyLower text) || pyIn "gain" (pyLower text)) <;>
    cases hneg : (pyIn "down" (pyLower text) || pyIn "loss" (pyLower text)) <;>
      simp [simple_sentiment, hpos, hneg]

/-! ## Spec-modelled indicator entry point (spec §4.1) -/

/-- Modelled from the spec: the Indicator Engine contract
`compute(series, short_window, long_window, rsi_window)` of §4.1 with its
`InvalidParameter` rejection of a window size ≤ 0.  The source hard-codes
the windows to 20/50/14 inside `add_technical_indicators` and contains no
window parameter or validation code, so the parametric entry point and
its error path exist only in the spec; the column bodies below are the
source's (`rollingMean`, `rsiSeries`). -/
def compute (shortW longW rsiW : ℤ) (closes : List ℚ) : Except String IndicatorSeries :=
  if shortW ≤ 0 ∨ longW ≤ 0 ∨ rsiW ≤ 0 then Except.error "InvalidParameter"
  else Except.ok
    { ma_short := rollingMean shortW.toNat closes
      ma_long := rollingMean longW.toNat closes
      rsi := rsiSeries rsiW.toNat closes }

/-- Positions before the window fills are undefined in a rolling mean. -/
theorem rollingMean_undefined_before_fill (w : ℕ) (xs : List ℚ) (i : ℕ)
    (hi : i < xs.length) (hw : i + 1 < w) : (rollingMean w xs)[i]? = some none := by
  rw [rollingMean_getElem? w xs i hi, if_neg (by omega)]

/-- Positions before the RSI window fills carry NaN. -/
theorem rsiSeries_nan_before_fill (w : ℕ) (closes : List ℚ) (i : ℕ)
    (hi : i < closes.length) (hw : i + 1 < w) : (rsiSeries w closes)[i]? = some EF.nan := by
  rw [rsiSeries_getElem?]
  have hg : (avgGain w closes)[i]? = some none :=
    rollingMean_undefined_before_fill w (gains closes) i (by rw [length_gains]; exact hi) hw
  have hl : (avgLoss w closes)[i]? = some none :=
    rollingMean_undefined_before_fill w (losses closes) i (by rw [length_losses]; exact hi) hw
  rw [hg, hl]
  exact congrArg some (rsiCell_nan_left none)

/-- C7: the spec's indicator computation rejects any window size ≤ 0 with
an `InvalidParameter` error; for positive windows it never throws: it
returns a result for every series, the empty series yields the empty
`IndicatorSeries`, the columns stay aligned 1:1 with the input, and a
series shorter than a window carries undefined values at every unfilled
position. -/
theorem compute_validates_and_never_throws (sw lw rw : ℤ) (closes : List ℚ) :
    ((sw ≤ 0 ∨ lw ≤ 0 ∨ rw ≤ 0) →
      compute sw lw rw closes = Except.error "InvalidParameter") ∧
    (0 < sw → 0 < lw → 0 < rw →
      ∃ r : IndicatorSeries, compute sw lw rw closes = Except.ok r ∧
        (closes = [] → r = ⟨[], [], []⟩) ∧
        r.ma_short.length = closes.length ∧
        r.ma_long.length = closes.length ∧
        r.rsi.length = closes.length ∧
        (∀ i, i < closes.length → i + 1 < sw.toNat → r.ma_short[i]? = some none) ∧
        (∀ i, i < closes.length → i + 1 < lw.toNat → r.ma_long[i]? = some none) ∧
        (∀ i, i < closes.length → i + 1 < rw.toNat → r.rsi[i]? = some EF.nan)) := by
  constructor
  · intro h
    rw [compute, if_pos h]
  · intro hsw hlw hrw
    have hcond : ¬ (sw ≤ 0 ∨ lw ≤ 0 ∨ rw ≤ 0) := by
      push_neg
      exact ⟨hsw, hlw, hrw⟩
    refine ⟨_, by rw [compute, if_neg hcond], ?_, ?_, ?_, ?_, ?_, ?_, ?_⟩
    · intro h
      subst h
      simp [rollingMean, rsiSeries, avgGain, avgLoss, gains, losses, diff, rollingMean]
    · exact length_rollingMean _ closes
    · exact length_rollingMean _ closes
    · exact length_rsiSeries _ closes
    · intro i hi hw
      exact rollingMean_undefined_before_fill _ closes i hi hw
    · intro i hi hw
      exact rollingMean_undefined_before_fill _ closes i hi hw
    · intro i hi hw
      exact rsiSeries_nan_before_fill _ closes i hi hw

/-- C7 witness: the theorem at concrete inputs — a window of 0 is
rejected with `InvalidParameter`. -/
theorem compute_validates_and_never_throws_witness :
    compute 0 50 14 [5] = Except.error "InvalidParameter" :=
  (compute_validates_and_never_throws 0 50 14 [5]).1 (Or.inl le_rfl)

/-! ## CLI (`src/app.py`, lines 113–143)

The argparse result is a `CliArgs` record; the two gateway accesses of
the `try` block (`stock.info` and `stock.history(period)`) are `Except`
parameters whose `error` constructor models the raised exception.  The
printed lines are abstract `CliOut` items; the second component of the
result is the process exit status — `run_cli` returns normally from
every branch (the `except` clause prints and falls through), so the
interpreter exits with status 0. -/

/-- Fields the CLI reads from `stock.info`; `none` is a missing key
(printed as "N/A"). -/
structure QuoteInfo where
  currentPrice : Option ℚ
  marketCap : Option ℚ
  trailingPE : Option ℚ
deriving DecidableEq

/-- Parsed command line: `--symbol` (optional), `--period` (default
"1mo"), `--portfolio` flag. -/
structure CliArgs where
  symbol : Option String
  period : String
  portfolio : Bool
deriving DecidableEq

/-- The last 5 rows (`DataFrame.tail(5)`) of the indicator-augmented
frame: the closes and the three derived columns. -/
def tail5 (closes : List ℚ) : List ℚ × IndicatorSeries :=
  let ind := add_technical_indicators closes
  (closes.drop (closes.length - 5),
    { ma_short := ind.ma_short.drop (closes.length - 5)
      ma_long := ind.ma_long.drop (closes.length - 5)
      rsi := ind.rsi.drop (closes.length - 5) })

/-- One printed line of the CLI. -/
inductive CliOut where
  | portfolioMsg : CliOut
  | usage : CliOut
  | fetching (sym period : String) : CliOut
  | priceLine (p : Option ℚ) : CliOut
  | capLine (c : Option ℚ) : CliOut
  | peLine (pe : Option ℚ) : CliOut
  | tailTable (t : List ℚ × IndicatorSeries) : CliOut
  | noData : CliOut
  | errorLine (msg : String) : CliOut
deriving DecidableEq

/-- Function `run_cli`: `--portfolio` short-circuits; a missing (or
empty, which Python's `not` also treats as absent) `--symbol` prints the
usage line and returns before touching any gateway; otherwise the symbol
is upper-cased, the quote fields are printed, and the history is either
empty ("No historical data found."), or augmented with indicators and
its tail printed; a raised gateway exception is caught and printed as
`Error: …`.  Every branch returns normally: exit status 0. -/
def run_cli (args : CliArgs) (info : Except String QuoteInfo)
    (hist : Except String (List ℚ)) : List CliOut × ℕ :=
  if args.portfolio then ([.portfolioMsg], 0)
  else
    match args.symbol with
    | none => ([.usage], 0)
    | some sym =>
      if sym = "" then ([.usage], 0)
      else
        let s := pyUpper sym
        match info with
        | .error e => ([.fetching s args.period, .errorLine e], 0)
        | .ok q =>
          match hist with
          | .error e =>
            ([.fetching s args.period, .priceLine q.currentPrice, .capLine q.marketCap,
              .peLine q.trailingPE, .errorLine e], 0)
          | .ok closes =>
            if closes = [] then
              ([.fetching s args.period, .priceLine q.currentPrice, .capLine q.marketCap,
                .peLine q.trailingPE, .noData], 0)
            else
              ([.fetching s args.period, .priceLine q.currentPrice, .capLine q.marketCap,
                .peLine q.trailingPE, .tailTable (tail5 closes)], 0)

/-- C8 counterexample: on a gateway failure the CLI prints the error line
but exits with status 0, not the non-zero status the claim requires —
`run_cli` catches the exception, prints `Error: …` and returns normally. -/
theorem run_cli_exits_zero_on_failure_cex :
    run_cli ⟨some "AAPL", "1mo", false⟩ (Except.error "boom") (Except.error "ignored")
      = ([CliOut.fetching "AAPL" "1mo", CliOut.errorLine "boom"], 0) ∧
    (run_cli ⟨some "AAPL", "1mo", false⟩ (Except.error "boom") (Except.error "ignored")).2
      = 0 := by
  exact ⟨by decide, by decide⟩

/-- C8 amended: with `--symbol` omitted the CLI prints the usage line and
performs no analysis (the result is the same for every gateway value);
on success it prints the fetched fields and the tail of the
indicator-augmented series; on any gateway failure it prints an error
line — and in every case it exits with status 0 (the source catches the
exception and returns normally, never exiting non-zero). -/
theorem run_cli_behavior (per : String) (sym : String) (info : Except String QuoteInfo)
    (hist : Except String (List ℚ)) :
    (∀ info' hist', run_cli ⟨none, per, false⟩ info' hist' = ([CliOut.usage], 0)) ∧
    (∀ q closes, sym ≠ "" → info = Except.ok q → hist = Except.ok closes → closes ≠ [] →
      run_cli ⟨some sym, per, false⟩ info hist =
        ([CliOut.fetching (pyUpper sym) per, CliOut.priceLine q.currentPrice,
          CliOut.capLine q.marketCap, CliOut.peLine q.trailingPE,
          CliOut.tailTable (tail5 closes)], 0)) ∧
    (∀ e, sym ≠ "" → info = Except.error e →
      run_cli ⟨some sym, per, false⟩ info hist =
        ([CliOut.fetching (pyUpper sym) per, CliOut.errorLine e], 0)) ∧
    (∀ q e, sym ≠ "" → info = Except.ok q → hist = Except.error e →
      run_cli ⟨some sym, per, false⟩ info hist =
        ([CliOut.fetching (pyUpper sym) per, CliOut.priceLine q.currentPrice,
          CliOut.capLine q.marketCap, CliOut.peLine q.trailingPE, CliOut.errorLine e], 0)) ∧
    (∀ info' hist', (run_cli ⟨some sym, per, false⟩ info' hist').2 = 0) := by
  refine ⟨?_, ?_, ?_, ?_, ?_⟩
  · intro info' hist'
    rfl
  · intro q closes hs hinfo hhist hne
    subst hinfo hhist
    simp [run_cli, hs, hne]
  · intro e hs hinfo
    subst hinfo
    simp [run_cli, hs]
  · intro q e hs hinfo hhist
    subst hinfo hhist
    simp [run_cli, hs]
  · intro info' hist'
    by_cases hs : sym = ""
    · subst hs
      rfl
    · cases info' with
      | error e => simp [run_cli, hs]
      | ok q =>
        cases hist' with
        | error e => simp [run_cli, hs]
        | ok closes =>
          by_cases hne : closes = [] <;> simp [run_cli, hs, hne]

/-- C8 amended witness: the theorem at concrete inputs — the usage line
with no analysis when `--symbol` is omitted. -/
theorem run_cli_behavior_witness :
    run_cli ⟨none, "1mo", false⟩ (Except.error "x") (Except.ok [1, 2, 3])
      = ([CliOut.usage], 0) :=
  (run_cli_behavior "1mo" "AAPL" (Except.error "x") (Except.ok [1, 2, 3])).1
    (Except.error "x") (Except.ok [1, 2, 3])

end StockSense
